import Mathlib

/-!
Verification of the `influx3_lp` line-protocol encoder.

The repository is a Rust derive macro (`src/influx3_lp_macros/src/lib.rs`)
that generates a `to_lp` method serializing a struct into one InfluxDB
line-protocol line.  The macro runs in two stages:

* at macro-expansion (derive) time it escapes the `table_name` attribute,
  escapes tag keys and field keys, panics when the `table_name` attribute
  is missing, and panics when the struct declares zero field entries;
* the generated runtime code renders present tag values and field values,
  formats each field literal according to the field's declared type
  (TypeId comparison against i8/i16/i32/i64, u8/u16/u32/u64, String, with
  a Display fallback for every other type), panics when a String field
  value is longer than 64 * 1024 bytes, and assembles the line.

The embedding below models Rust strings as `List Char` (with UTF-8 byte
length made explicit through `Char.utf8Size`), Rust panics as
`Except.error` carrying the panic message, and both stages as one
`encode` function on a `Record` describing the derived struct together
with one runtime instance of it.
-/

namespace Influx3Lp

/-- Rust strings are modelled as lists of characters. -/
abbrev Str := List Char

/-- Model of Rust `str::replace` for a single-character pattern `c`,
replaced by `rep` (every escape in the source replaces one character by a
two-character sequence). -/
def replaceChar (c : Char) (rep : Str) : Str → Str
  | [] => []
  | x :: xs => if x = c then rep ++ replaceChar c rep xs else x :: replaceChar c rep xs

/-- Model of `escape_table` from `StringExtensions` (lib.rs line 300):
`self.replace(",", "\\,").replace(" ", "\\ ")`. -/
def escape_table (s : Str) : Str :=
  replaceChar ' ' ['\\', ' '] (replaceChar ',' ['\\', ','] s)

/-- Model of `escape_tag_key` (lib.rs line 304):
`self.replace(",", "\\,").replace(" ", "\\ ").replace("=", "\\=")`. -/
def escape_tag_key (s : Str) : Str :=
  replaceChar '=' ['\\', '='] (replaceChar ' ' ['\\', ' '] (replaceChar ',' ['\\', ','] s))

/-- Model of `escape_tag_value` (lib.rs line 308); the generated runtime code for a
tag value (lib.rs lines 86-89 and 97-100) inlines exactly the same three
substitutions in the same order. -/
def escape_tag_value (s : Str) : Str :=
  replaceChar '=' ['\\', '='] (replaceChar ' ' ['\\', ' '] (replaceChar ',' ['\\', ','] s))

/-- Model of `escape_field_key` (lib.rs line 312). -/
def escape_field_key (s : Str) : Str :=
  replaceChar '=' ['\\', '='] (replaceChar ' ' ['\\', ' '] (replaceChar ',' ['\\', ','] s))

/-- Model of `escape_field_value` (lib.rs line 316); the generated code for a String
field (lib.rs lines 145 and 183) inlines exactly the same two
substitutions: `t.replace("\\", "\\\\").replace("\"", "\\\"")`. -/
def escape_field_value (s : Str) : Str :=
  replaceChar '"' ['\\', '"'] (replaceChar '\\' ['\\', '\\'] s)

/-- UTF-8 byte length of a string, the model of Rust `str::len`. -/
def utf8Len : Str → Nat
  | [] => 0
  | c :: cs => c.utf8Size + utf8Len cs

/-- Decimal rendering of a natural number, the model of Rust `Display` for
unsigned integers: the character list behind Lean's own `Nat.repr`. -/
def natDecimal (n : Nat) : Str := Nat.toDigits 10 n

/-- Decimal rendering of an integer, the model of Rust `Display` for
signed integers: a minus sign for negatives followed by the digits. -/
def intDecimal : Int → Str
  | Int.ofNat n => natDecimal n
  | Int.negSucc n => '-' :: natDecimal (n + 1)

/-- Rust `Display` for `bool`: `true` or `false`, lowercase, unquoted. -/
def boolDisplay (b : Bool) : Str :=
  if b then ['t', 'r', 'u', 'e'] else ['f', 'a', 'l', 's', 'e']

/-- The widths the macro compares the declared field type against with
`TypeId` (i8/i16/i32/i64 and u8/u16/u32/u64, lib.rs lines 164-175).
Every width lands in the same generated branch, so the width does not
influence the produced literal. -/
inductive IntWidth
  | w8
  | w16
  | w32
  | w64
deriving DecidableEq

/-- A present field value together with the declared type the macro
dispatched on.  `float` and `otherDisplay` both carry the value's Rust
`Display` rendering, since the generated code for every type outside the
eight integer types and `String` is the plain `format!("{}", v)`
fallback (lib.rs lines 185-187). -/
inductive FieldVal
  | signed (w : IntWidth) (v : Int)
  | unsigned (w : IntWidth) (v : Nat)
  | text (s : Str)
  | boolean (b : Bool)
  | float (disp : Str)
  | otherDisplay (disp : Str)
deriving DecidableEq

/-- A failure of the encoder.  Every failure in the source is a Rust
panic; the payload is the panic message. -/
inductive LpErr
  | fail (msg : Str)
deriving DecidableEq

/-- The panic message of lib.rs lines 141-143 and 179-181. -/
def fieldTooLargeMsg : Str := String.toList "Length of string field value has a limit of 64K"

/-- The `expect` message of lib.rs line 196. -/
def missingTableNameMsg : Str := String.toList "Missing table_name in #[influx3_lp]"

/-- The panic message of lib.rs line 198 for a struct with zero declared
field entries. -/
def noFieldsMsg (structName : Str) : Str :=
  structName ++ String.toList " should have at least one field"

/-- The literal produced for one present field value: the generated
TypeId dispatch of lib.rs lines 126-149 (Option fields) and 164-187
(plain fields), which are textually identical.  Signed widths get the
`i` suffix, unsigned widths the `u` suffix, a String value is length
checked (bytes, raw value, strict `> 64 * 1024`), escaped, and wrapped
in double quotes, and every other type is rendered by its `Display`. -/
def formatLiteral : FieldVal → Except LpErr Str
  | .signed _ v => .ok (intDecimal v ++ ['i'])
  | .unsigned _ v => .ok (natDecimal v ++ ['u'])
  | .text s =>
    if 64 * 1024 < utf8Len s then .error (.fail fieldTooLargeMsg)
    else .ok ('"' :: escape_field_value s ++ ['"'])
  | .boolean b => .ok (boolDisplay b)
  | .float d => .ok d
  | .otherDisplay d => .ok d

/-- The caller-supplied raw characters inside one field value: the text
of a `String` field and the `Display` rendering of a float or of any
other fallback type (integer and boolean values carry no caller-chosen
characters). -/
def fvPayload : FieldVal → Str
  | .signed _ _ => []
  | .unsigned _ _ => []
  | .text s => s
  | .boolean _ => []
  | .float d => d
  | .otherDisplay d => d

/-- A derived struct together with one runtime instance of it.

* `structName` is the struct identifier (it only appears in the
  zero-declared-fields panic message);
* `tableName` is the `table_name` attribute when present (the macro
  `expect`s on it, lib.rs line 196);
* `tags` holds one entry per `#[influx3_lp(tag)]` field, in declaration
  order: the raw key (the field identifier) and the `Display` rendering
  of the runtime value when present (`none` models an `Option` tag
  holding `None`, lib.rs lines 79-102);
* `fields` holds one entry per plain field, in declaration order: the
  raw key and the declared-type-tagged runtime value when present
  (`none` models an `Option` field holding `None`, lib.rs lines
  118-153);
* `timestamp` is the runtime timestamp value when one is rendered:
  `none` covers both a struct with no `#[influx3_lp(timestamp)]` field
  (lib.rs lines 240-264) and an `Option` timestamp holding `None`
  (lib.rs lines 105-110), which produce the same output because the
  generated code branches on `ts.len() > 0` (lib.rs line 220). -/
structure Record where
  structName : Str
  tableName : Option Str
  tags : List (Str × Option Str)
  fields : List (Str × Option FieldVal)
  timestamp : Option Int

/-- The rendered tag tokens, in declaration order: present entries emit
`escapedKey=escapedValue`, absent entries emit nothing (lib.rs lines
79-102, the `parts` vector). -/
def renderTags (ts : List (Str × Option Str)) : List Str :=
  ts.filterMap fun kv => kv.2.map fun v => escape_tag_key kv.1 ++ '=' :: escape_tag_value v

/-- The rendered field tokens, in declaration order: present entries emit
`escapedKey=literal`, absent entries emit nothing, and a panic while
formatting a literal aborts the whole call (lib.rs lines 118-191, the
`fields` vector). -/
def renderFields : List (Str × Option FieldVal) → Except LpErr (List Str)
  | [] => .ok []
  | (_, none) :: rest => renderFields rest
  | (k, some v) :: rest =>
    match formatLiteral v with
    | .error e => .error e
    | .ok lit =>
      match renderFields rest with
      | .error e => .error e
      | .ok toks => .ok ((escape_field_key k ++ '=' :: lit) :: toks)

/-- Rust `Vec::join(",")`. -/
def joinComma : List Str → Str
  | [] => []
  | [x] => x
  | x :: xs => x ++ ',' :: joinComma xs

/-- The whole encoder, both stages of the macro in order:

1. `table_name.expect(...)` (lib.rs line 196);
2. the zero-declared-field-entries panic (lib.rs lines 197-199) — note
   it counts *declared* entries, not entries present at runtime;
3. the generated runtime body (lib.rs lines 201-265): render tags and
   fields, build `tags_str` with its leading comma only when some tag is
   present, and append the timestamp segment only when the rendered
   timestamp string is non-empty. -/
def encode (r : Record) : Except LpErr Str :=
  match r.tableName with
  | none => .error (.fail missingTableNameMsg)
  | some tn =>
    if r.fields.length = 0 then .error (.fail (noFieldsMsg r.structName))
    else
      match renderFields r.fields with
      | .error e => .error e
      | .ok fieldToks =>
        let parts := renderTags r.tags
        let tagsStr := if parts = [] then [] else ',' :: joinComma parts
        let tsStr := match r.timestamp with
          | some v => intDecimal v
          | none => []
        if 0 < tsStr.length then
          .ok (escape_table tn ++ tagsStr ++ ' ' :: joinComma fieldToks ++ ' ' :: tsStr)
        else
          .ok (escape_table tn ++ tagsStr ++ ' ' :: joinComma fieldToks)

/-- Spec-side single-pass escaping (§4.1 of the spec): walk the string
once and backslash-prefix every character belonging to the position's
escape set. -/
def escapeSpec (esc : List Char) : Str → Str
  | [] => []
  | c :: cs => (if c ∈ esc then ['\\', c] else [c]) ++ escapeSpec esc cs

/-- Spec-side line assembly (§4.3 step 5 of the spec): measurement, then
a comma and the comma-joined tag tokens only if there is at least one,
then a single space and the comma-joined field tokens, then a single
space and the timestamp only when present. -/
def specAssemble (measurement : Str) (tagToks fieldToks : List Str) (ts : Option Str) : Str :=
  measurement
    ++ (if tagToks = [] then [] else ',' :: joinComma tagToks)
    ++ ' ' :: joinComma fieldToks
    ++ (match ts with | some t => ' ' :: t | none => [])

/-! ## General lemmas about the escaping primitives -/

theorem replaceChar_append (c : Char) (rep a b : Str) :
    replaceChar c rep (a ++ b) = replaceChar c rep a ++ replaceChar c rep b := by
  induction a with
  | nil => rfl
  | cons x xs ih =>
    simp only [List.cons_append, replaceChar, ih]
    split <;> simp [ih]

theorem escape_table_single_pass (s : Str) :
    escape_table s = escapeSpec [',', ' '] s := by
  induction s with
  | nil => rfl
  | cons x xs ih =>
    simp only [escape_table, escapeSpec] at ih ⊢
    simp only [replaceChar]
    by_cases h1 : x = ','
    · subst h1
      rw [if_pos rfl, replaceChar_append, ih]
      rfl
    · rw [if_neg h1]
      simp only [replaceChar]
      by_cases h2 : x = ' '
      · subst h2
        rw [if_pos rfl, ih]
        rfl
      · rw [if_neg h2, ih]
        have hx : ¬ (x ∈ [',', ' ']) := by simp [h1, h2]
        rw [if_neg hx]
        rfl

theorem escape_tag_key_single_pass (s : Str) :
    escape_tag_key s = escapeSpec [',', ' ', '='] s := by
  induction s with
  | nil => rfl
  | cons x xs ih =>
    simp only [escape_tag_key, escapeSpec] at ih ⊢
    simp only [replaceChar]
    by_cases h1 : x = ','
    · subst h1
      rw [if_pos rfl, replaceChar_append, replaceChar_append, ih]
      rfl
    · rw [if_neg h1]
      simp only [replaceChar]
      by_cases h2 : x = ' '
      · subst h2
        rw [if_pos rfl, replaceChar_append, ih]
        rfl
      · rw [if_neg h2]
        simp only [replaceChar]
        by_cases h3 : x = '='
        · subst h3
          rw [if_pos rfl, ih]
          rfl
        · rw [if_neg h3, ih]
          have hx : ¬ (x ∈ [',', ' ', '=']) := by simp [h1, h2, h3]
          rw [if_neg hx]
          rfl

theorem escape_tag_value_single_pass (s : Str) :
    escape_tag_value s = escapeSpec [',', ' ', '='] s :=
  escape_tag_key_single_pass s

theorem escape_field_key_single_pass (s : Str) :
    escape_field_key s = escapeSpec [',', ' ', '='] s :=
  escape_tag_key_single_pass s

theorem escape_field_value_single_pass (s : Str) :
    escape_field_value s = escapeSpec ['\\', '"'] s := by
  induction s with
  | nil => rfl
  | cons x xs ih =>
    simp only [escape_field_value, escapeSpec] at ih ⊢
    simp only [replaceChar]
    by_cases h1 : x = '\\'
    · subst h1
      rw [if_pos rfl, replaceChar_append, ih]
      rfl
    · rw [if_neg h1]
      simp only [replaceChar]
      by_cases h2 : x = '"'
      · subst h2
        rw [if_pos rfl, ih]
        rfl
      · rw [if_neg h2, ih]
        have hx : ¬ (x ∈ ['\\', '"']) := by simp [h1, h2]
        rw [if_neg hx]
        rfl

theorem utf8Len_replicate_A (n : Nat) : utf8Len (List.replicate n 'A') = n := by
  induction n with
  | zero => rfl
  | succ k ih =>
    have hA : ('A').utf8Size = 1 := rfl
    simp only [List.replicate_succ, utf8Len, hA, ih]
    omega

/-! ## Claim theorems: escaping and literal formatting -/

/-- C2: escaping is a single sequential pass of backslash-prefix
substitutions determined by position: the measurement escapes comma and
space; tag keys, tag values and field keys escape comma, space and
equals; a text field value escapes only backslash and double quote and
is then wrapped in double quotes by the formatter. -/
theorem claim_C2_escape_single_pass (s : Str) :
    escape_table s = escapeSpec [',', ' '] s ∧
    escape_tag_key s = escapeSpec [',', ' ', '='] s ∧
    escape_tag_value s = escapeSpec [',', ' ', '='] s ∧
    escape_field_key s = escapeSpec [',', ' ', '='] s ∧
    escape_field_value s = escapeSpec ['\\', '"'] s ∧
    (utf8Len s ≤ 64 * 1024 →
      formatLiteral (FieldVal.text s) =
        Except.ok ('"' :: escapeSpec ['\\', '"'] s ++ ['"'])) :=
  ⟨escape_table_single_pass s, escape_tag_key_single_pass s,
   escape_tag_value_single_pass s, escape_field_key_single_pass s,
   escape_field_value_single_pass s,
   fun h => by
     simp only [formatLiteral, if_neg (Nat.not_lt.mpr h), escape_field_value_single_pass]⟩

/-- Witness for C2 at the concrete text value `a b`. -/
theorem claim_C2_escape_single_pass_witness :
    utf8Len (String.toList "a b") ≤ 64 * 1024 ∧
    formatLiteral (FieldVal.text (String.toList "a b")) =
      Except.ok ('"' :: escapeSpec ['\\', '"'] (String.toList "a b") ++ ['"']) :=
  ⟨by decide, (claim_C2_escape_single_pass (String.toList "a b")).2.2.2.2.2 (by decide)⟩

/-- C5: a field's literal is determined by its declared type: signed
integer widths render as the decimal digits followed by the suffix
`i`, unsigned widths as the decimal digits followed by the suffix `u`,
booleans as bare lowercase `true`/`false` with no quotes, and floats
carry no suffix (their `Display` rendering is emitted unchanged). -/
theorem claim_C5_literal_suffixes :
    (∀ w v, formatLiteral (FieldVal.signed w v) = Except.ok (intDecimal v ++ ['i'])) ∧
    (∀ w v, formatLiteral (FieldVal.unsigned w v) = Except.ok (natDecimal v ++ ['u'])) ∧
    (∀ b, formatLiteral (FieldVal.boolean b) = Except.ok (boolDisplay b)) ∧
    boolDisplay true = String.toList "true" ∧
    boolDisplay false = String.toList "false" ∧
    (∀ b, '"' ∉ boolDisplay b) ∧
    (∀ d, formatLiteral (FieldVal.float d) = Except.ok d) :=
  ⟨fun _ _ => rfl, fun _ _ => rfl, fun _ => rfl, rfl, rfl,
   fun b => by cases b <;> decide, fun _ => rfl⟩

/-- C10: every declared type outside i8/i16/i32/i64, u8/u16/u32/u64 and
String — floats and booleans included — is rendered by its default
`Display` conversion with no suffix, no quoting, no escaping and no
length check, whatever the rendering contains. -/
theorem claim_C10_display_fallback :
    (∀ d, formatLiteral (FieldVal.float d) = Except.ok d) ∧
    (∀ d, formatLiteral (FieldVal.otherDisplay d) = Except.ok d) ∧
    (∀ b, formatLiteral (FieldVal.boolean b) = Except.ok (boolDisplay b)) ∧
    (∀ n, formatLiteral (FieldVal.otherDisplay (List.replicate n '"')) =
      Except.ok (List.replicate n '"')) :=
  ⟨fun _ => rfl, fun _ => rfl, fun _ => rfl, fun _ => rfl⟩

/-- C3: a text field value of UTF-8 byte length at most 64 * 1024
formats successfully (escaped and quoted), and any longer value fails
with the field-too-large panic; the length is measured on the raw value,
before escaping. -/
theorem claim_C3_text_length_boundary (s : Str) :
    (utf8Len s ≤ 64 * 1024 →
      formatLiteral (FieldVal.text s) =
        Except.ok ('"' :: escape_field_value s ++ ['"'])) ∧
    (64 * 1024 < utf8Len s →
      formatLiteral (FieldVal.text s) = Except.error (LpErr.fail fieldTooLargeMsg)) :=
  ⟨fun h => by simp only [formatLiteral, if_neg (Nat.not_lt.mpr h)],
   fun h => by simp only [formatLiteral, if_pos h]⟩

/-- Witness for C3 at the boundary: 65536 bytes succeed, 65537 fail. -/
theorem claim_C3_text_length_boundary_witness :
    (utf8Len (List.replicate (64 * 1024) 'A') ≤ 64 * 1024 ∧
      formatLiteral (FieldVal.text (List.replicate (64 * 1024) 'A')) =
        Except.ok ('"' :: escape_field_value (List.replicate (64 * 1024) 'A') ++ ['"'])) ∧
    (64 * 1024 < utf8Len (List.replicate (64 * 1024 + 1) 'A') ∧
      formatLiteral (FieldVal.text (List.replicate (64 * 1024 + 1) 'A')) =
        Except.error (LpErr.fail fieldTooLargeMsg)) := by
  have h1 : utf8Len (List.replicate (64 * 1024) 'A') = 64 * 1024 := utf8Len_replicate_A _
  have h2 : utf8Len (List.replicate (64 * 1024 + 1) 'A') = 64 * 1024 + 1 := utf8Len_replicate_A _
  exact ⟨⟨le_of_eq h1, (claim_C3_text_length_boundary _).1 (le_of_eq h1)⟩,
    ⟨by omega, (claim_C3_text_length_boundary _).2 (by omega)⟩⟩

/-! ## Decimal renderings are non-empty -/

theorem toDigitsCore_length_le (b : Nat) :
    ∀ (f n : Nat) (ds : List Char), ds.length ≤ (Nat.toDigitsCore b f n ds).length := by
  intro f
  induction f with
  | zero => intro n ds; exact Nat.le_refl _
  | succ f ih =>
    intro n ds
    simp only [Nat.toDigitsCore]
    split
    · simp
    · exact Nat.le_trans (Nat.le_succ _) (ih (n / b) (Nat.digitChar (n % b) :: ds))

theorem natDecimal_ne_nil (n : Nat) : natDecimal n ≠ [] := by
  have h : 1 ≤ (Nat.toDigitsCore 10 (n + 1) n []).length := by
    simp only [Nat.toDigitsCore]
    split
    · simp
    · exact Nat.le_trans (by simp) (toDigitsCore_length_le 10 n (n / 10) [Nat.digitChar (n % 10)])
  intro hnil
  rw [natDecimal, Nat.toDigits] at hnil
  rw [hnil] at h
  simp at h

theorem intDecimal_ne_nil (v : Int) : intDecimal v ≠ [] := by
  cases v with
  | ofNat n => exact natDecimal_ne_nil n
  | negSucc n => simp [intDecimal]

/-! ## Success shape of the whole encoder -/

/-- When the `table_name` attribute is present, at least one field entry
is declared and every present field literal formats successfully, the
encoder succeeds and its output is exactly the spec-side assembly of the
escaped measurement, the rendered tag tokens, the rendered field tokens
and the optional decimal timestamp. -/
theorem encode_ok (r : Record) (tn : Str) (toks : List Str)
    (htn : r.tableName = some tn) (hne : r.fields ≠ [])
    (hf : renderFields r.fields = Except.ok toks) :
    encode r = Except.ok (specAssemble (escape_table tn) (renderTags r.tags) toks
      (r.timestamp.map intDecimal)) := by
  obtain ⟨sn, otn, tags, fs, ts⟩ := r
  simp only at htn hf ⊢
  subst htn
  simp only [encode]
  rw [if_neg (fun h0 => hne (List.length_eq_zero.mp h0)), hf]
  simp only [specAssemble]
  cases ts with
  | none =>
    simp only [Option.map_none']
    rw [if_neg (by simp)]
    simp [List.append_assoc]
  | some v =>
    simp only [Option.map_some']
    rw [if_pos (by simpa using List.length_pos.mpr (intDecimal_ne_nil v))]

/-- C6: for a valid record (non-empty measurement, at least one present
field, all field literals formatting successfully), the output is the
escaped measurement, then a comma and the comma-joined tag tokens only
if some tag is present, then a single space and the comma-joined field
tokens, then a single space and the decimal timestamp only if the
timestamp is present; tags and fields keep caller-declared order
(`renderTags`/`renderFields` traverse the declared sequences in order)
and no trailing space is added when the timestamp is absent. -/
theorem claim_C6_assembly (r : Record) (tn : Str) (toks : List Str)
    (htn : r.tableName = some tn) (_hmeas : tn ≠ [])
    (hp : ∃ p ∈ r.fields, p.2 ≠ none)
    (hf : renderFields r.fields = Except.ok toks) :
    encode r = Except.ok (specAssemble (escape_table tn) (renderTags r.tags) toks
      (r.timestamp.map intDecimal)) := by
  have hne : r.fields ≠ [] := by
    rcases hp with ⟨p, hmem, _⟩
    intro h0
    rw [h0] at hmem
    simp at hmem
  exact encode_ok r tn toks htn hne hf

/-- Witness for C6 on the spec's basic scenario (measurement `home`, one
tag, four fields, timestamp present). -/
theorem claim_C6_assembly_witness :
    (String.toList "home" ≠ []) ∧
    (∃ p ∈ [(String.toList "temp", some (FieldVal.float (String.toList "21"))),
            (String.toList "hum", some (FieldVal.float (String.toList "35.9"))),
            (String.toList "co", some (FieldVal.signed IntWidth.w32 0)),
            (String.toList "weather", some (FieldVal.text (String.toList "sunny")))],
      p.2 ≠ none) ∧
    renderFields [(String.toList "temp", some (FieldVal.float (String.toList "21"))),
            (String.toList "hum", some (FieldVal.float (String.toList "35.9"))),
            (String.toList "co", some (FieldVal.signed IntWidth.w32 0)),
            (String.toList "weather", some (FieldVal.text (String.toList "sunny")))] =
      Except.ok [String.toList "temp=21", String.toList "hum=35.9",
                 String.toList "co=0i", String.toList "weather=\"sunny\""] ∧
    encode ⟨String.toList "SensorData", some (String.toList "home"),
        [(String.toList "room", some (String.toList "Kitchen"))],
        [(String.toList "temp", some (FieldVal.float (String.toList "21"))),
            (String.toList "hum", some (FieldVal.float (String.toList "35.9"))),
            (String.toList "co", some (FieldVal.signed IntWidth.w32 0)),
            (String.toList "weather", some (FieldVal.text (String.toList "sunny")))],
        some 1735545600⟩ =
      Except.ok (specAssemble (escape_table (String.toList "home"))
        (renderTags [(String.toList "room", some (String.toList "Kitchen"))])
        [String.toList "temp=21", String.toList "hum=35.9",
         String.toList "co=0i", String.toList "weather=\"sunny\""]
        (some (intDecimal 1735545600))) := by
  refine ⟨by decide, by decide, by rfl, ?_⟩
  exact claim_C6_assembly _ _ _ rfl (by decide) (by decide) (by rfl)

/-! ## Absent entries and the no-fields / missing-table-name checks -/

theorem renderFields_all_absent (fs : List (Str × Option FieldVal))
    (h : ∀ p ∈ fs, p.2 = none) : renderFields fs = Except.ok [] := by
  induction fs with
  | nil => rfl
  | cons p rest ih =>
    obtain ⟨k, ov⟩ := p
    have hp : ov = none := h (k, ov) (List.mem_cons_self _ _)
    subst hp
    exact ih fun q hq => h q (List.mem_cons_of_mem _ hq)

/-- C1 counterexample: a record with one declared `Option` field holding
`None` (its only field entry resolves to absent) and one present tag
encodes WITHOUT error: the generated code returns the line `home,room=K `
(empty field segment, trailing space) instead of failing with the
no-fields panic. -/
theorem claim_C1_counterexample :
    encode ⟨String.toList "SensorData", some (String.toList "home"),
      [(String.toList "room", some (String.toList "K"))],
      [(String.toList "f", none)], none⟩ =
      Except.ok (String.toList "home,room=K ") := by
  rfl

/-- C1 amended: the no-fields check counts *declared* field entries at
macro-expansion time: a struct declaring zero field entries fails with
the no-fields panic regardless of its tags and timestamp, while a record
whose declared field entries all resolve to absent at runtime encodes
successfully (with an empty field segment). -/
theorem claim_C1_amended :
    (∀ sn tn tags ts, encode ⟨sn, some tn, tags, [], ts⟩ =
      Except.error (LpErr.fail (noFieldsMsg sn))) ∧
    (∀ sn tn tags fs ts, (∀ p ∈ fs, p.2 = none) → fs ≠ [] →
      ∃ out, encode ⟨sn, some tn, tags, fs, ts⟩ = Except.ok out) := by
  constructor
  · intro sn tn tags ts
    rfl
  · intro sn tn tags fs ts hall hne
    exact ⟨_, encode_ok ⟨sn, some tn, tags, fs, ts⟩ tn [] rfl hne
      (renderFields_all_absent fs hall)⟩

/-- Witness for C1 amended, second part, at a concrete all-absent record. -/
theorem claim_C1_amended_witness :
    (∀ p ∈ [(String.toList "g", (none : Option FieldVal))], p.2 = none) ∧
    [(String.toList "g", (none : Option FieldVal))] ≠ [] ∧
    ∃ out, encode ⟨String.toList "T", some (String.toList "m"),
      [], [(String.toList "g", none)], none⟩ = Except.ok out :=
  ⟨by decide, by decide,
   claim_C1_amended.2 (String.toList "T") (String.toList "m") []
     [(String.toList "g", none)] none (by decide) (by decide)⟩

/-- C4 counterexample: a record whose `table_name` attribute is the
empty string encodes WITHOUT error and returns a line beginning with the
empty measurement (here ` temp=21`), instead of failing with an
invalid-measurement error. -/
theorem claim_C4_counterexample :
    encode ⟨String.toList "S", some [], [],
      [(String.toList "temp", some (FieldVal.float (String.toList "21")))], none⟩ =
      Except.ok (' ' :: String.toList "temp=21") := by
  rfl

/-- C4 amended: the only measurement check is the derive-time `expect`
on the attribute itself: encoding fails (with the missing-table-name
panic) exactly when the `table_name` attribute is absent, regardless of
the rest of the record; an empty-string table name is accepted and
produces a line beginning with the empty measurement. -/
theorem claim_C4_amended :
    (∀ sn tags fs ts, encode ⟨sn, none, tags, fs, ts⟩ =
      Except.error (LpErr.fail missingTableNameMsg)) ∧
    (∃ r : Record, r.tableName = some [] ∧ ∃ out, encode r = Except.ok out) := by
  constructor
  · intro sn tags fs ts
    rfl
  · exact ⟨⟨String.toList "S", some [], [],
      [(String.toList "f", some (FieldVal.boolean true))], none⟩, rfl, _, rfl⟩

/-- C7: an absent (`None`) tag or field entry vanishes from the rendered
tokens entirely — removing it from the entry list leaves the tokens
unchanged, so no dangling separators can arise — while a
present-but-empty-string tag value still emits its `key=` token with an
empty right-hand side. -/
theorem claim_C7_absence_vs_emptiness :
    (∀ pre post k, renderTags (pre ++ (k, (none : Option Str)) :: post) =
      renderTags (pre ++ post)) ∧
    (∀ pre post k, renderFields (pre ++ (k, (none : Option FieldVal)) :: post) =
      renderFields (pre ++ post)) ∧
    (∀ pre post k, renderTags (pre ++ (k, some ([] : Str)) :: post) =
      renderTags pre ++ (escape_tag_key k ++ ['=']) :: renderTags post) := by
  refine ⟨?_, ?_, ?_⟩
  · intro pre post k
    simp [renderTags, List.filterMap_append]
  · intro pre post k
    induction pre with
    | nil => rfl
    | cons p rest ih =>
      obtain ⟨k0, ov⟩ := p
      cases ov with
      | none =>
        simpa only [renderFields, List.cons_append] using ih
      | some fv =>
        simp only [List.cons_append, renderFields, List.append_eq, ih]
  · intro pre post k
    simp [renderTags, List.filterMap_append, List.filterMap_cons]
    rfl

/-! ## The field-too-large failure carries no field key -/

theorem encode_text_too_large (sn tn : Str) (tags : List (Str × Option Str)) (k s : Str)
    (fs : List (Str × Option FieldVal)) (ts : Option Int)
    (h : 64 * 1024 < utf8Len s) :
    encode ⟨sn, some tn, tags, (k, some (FieldVal.text s)) :: fs, ts⟩ =
      Except.error (LpErr.fail fieldTooLargeMsg) := by
  simp [encode, renderFields, formatLiteral, h]

/-- C8 counterexample: when the text field keyed `content` exceeds the
64K ceiling, the surfaced error is the fixed panic message, and the
offending field's key `content` does not occur in it — the error
carries no field-key context. -/
theorem claim_C8_counterexample :
    encode ⟨String.toList "S", some (String.toList "home"), [],
      [(String.toList "content", some (FieldVal.text (List.replicate (64 * 1024 + 1) 'A')))],
      none⟩ = Except.error (LpErr.fail fieldTooLargeMsg) ∧
    ¬ List.IsInfix (String.toList "content") fieldTooLargeMsg := by
  constructor
  · exact encode_text_too_large _ _ _ _ _ _ _
      (by rw [utf8Len_replicate_A]; omega)
  · decide

/-- C8 amended: a text field value longer than 64 * 1024 bytes makes
encoding fail with the fixed panic message
`Length of string field value has a limit of 64K`, whatever the field's
key is — the key does not appear in the error. -/
theorem claim_C8_amended (sn tn : Str) (tags : List (Str × Option Str)) (k s : Str)
    (fs : List (Str × Option FieldVal)) (ts : Option Int)
    (h : 64 * 1024 < utf8Len s) :
    encode ⟨sn, some tn, tags, (k, some (FieldVal.text s)) :: fs, ts⟩ =
      Except.error (LpErr.fail fieldTooLargeMsg) :=
  encode_text_too_large sn tn tags k s fs ts h

/-- Witness for C8 amended at a concrete oversized value. -/
theorem claim_C8_amended_witness :
    64 * 1024 < utf8Len (List.replicate (64 * 1024 + 1) 'A') ∧
    encode ⟨String.toList "T", some (String.toList "home"), [],
      [(String.toList "big", some (FieldVal.text (List.replicate (64 * 1024 + 1) 'A')))],
      none⟩ = Except.error (LpErr.fail fieldTooLargeMsg) := by
  have h : 64 * 1024 < utf8Len (List.replicate (64 * 1024 + 1) 'A') := by
    rw [utf8Len_replicate_A]
    omega
  exact ⟨h, claim_C8_amended _ _ _ _ _ _ _ h⟩

/-! ## Newlines pass through the encoder unescaped -/

theorem mem_replaceChar (a : Char) (rep s : Str) (c : Char) (h : c ∈ replaceChar a rep s) :
    c ∈ rep ∨ c ∈ s := by
  induction s with
  | nil => simp [replaceChar] at h
  | cons x xs ih =>
    simp only [replaceChar] at h
    split at h
    · rcases List.mem_append.mp h with h1 | h1
      · exact Or.inl h1
      · rcases ih h1 with h2 | h2
        · exact Or.inl h2
        · exact Or.inr (List.mem_cons_of_mem _ h2)
    · rcases List.mem_cons.mp h with h1 | h1
      · exact Or.inr (by rw [h1]; exact List.mem_cons_self _ _)
      · rcases ih h1 with h2 | h2
        · exact Or.inl h2
        · exact Or.inr (List.mem_cons_of_mem _ h2)

theorem no_newline_replaceChar (a : Char) (rep s : Str)
    (hrep : '\n' ∉ rep) (hs : '\n' ∉ s) : '\n' ∉ replaceChar a rep s :=
  fun h => (mem_replaceChar a rep s _ h).elim hrep hs

theorem no_newline_escape_table (tn : Str) (hs : '\n' ∉ tn) : '\n' ∉ escape_table tn :=
  no_newline_replaceChar _ _ _ (by decide) (no_newline_replaceChar _ _ _ (by decide) hs)

theorem no_newline_escape_tag_key (s : Str) (hs : '\n' ∉ s) : '\n' ∉ escape_tag_key s :=
  no_newline_replaceChar _ _ _ (by decide)
    (no_newline_replaceChar _ _ _ (by decide)
      (no_newline_replaceChar _ _ _ (by decide) hs))

theorem no_newline_escape_tag_value (s : Str) (hs : '\n' ∉ s) : '\n' ∉ escape_tag_value s :=
  no_newline_escape_tag_key s hs

theorem no_newline_escape_field_key (s : Str) (hs : '\n' ∉ s) : '\n' ∉ escape_field_key s :=
  no_newline_escape_tag_key s hs

theorem no_newline_escape_field_value (s : Str) (hs : '\n' ∉ s) :
    '\n' ∉ escape_field_value s :=
  no_newline_replaceChar _ _ _ (by decide) (no_newline_replaceChar _ _ _ (by decide) hs)

theorem digitChar_ne_newline (m : Nat) : Nat.digitChar m ≠ '\n' := by
  by_cases hm : m < 16
  · interval_cases m <;> decide
  · have e : Nat.digitChar m = '*' := by
      have h0 : m ≠ 0 := by omega
      have h1 : m ≠ 1 := by omega
      have h2 : m ≠ 2 := by omega
      have h3 : m ≠ 3 := by omega
      have h4 : m ≠ 4 := by omega
      have h5 : m ≠ 5 := by omega
      have h6 : m ≠ 6 := by omega
      have h7 : m ≠ 7 := by omega
      have h8 : m ≠ 8 := by omega
      have h9 : m ≠ 9 := by omega
      have h10 : m ≠ 10 := by omega
      have h11 : m ≠ 11 := by omega
      have h12 : m ≠ 12 := by omega
      have h13 : m ≠ 13 := by omega
      have h14 : m ≠ 14 := by omega
      have h15 : m ≠ 15 := by omega
      simp [Nat.digitChar, h0, h1, h2, h3, h4, h5, h6, h7, h8, h9,
        h10, h11, h12, h13, h14, h15]
    rw [e]
    decide

theorem mem_toDigitsCore (b : Nat) :
    ∀ (f n : Nat) (ds : List Char) (c : Char), c ∈ Nat.toDigitsCore b f n ds →
      c ∈ ds ∨ ∃ m, c = Nat.digitChar m := by
  intro f
  induction f with
  | zero => intro n ds c h; exact Or.inl h
  | succ f ih =>
    intro n ds c h
    simp only [Nat.toDigitsCore] at h
    split at h
    · rcases List.mem_cons.mp h with h1 | h1
      · exact Or.inr ⟨_, h1⟩
      · exact Or.inl h1
    · rcases ih _ _ _ h with h1 | h1
      · rcases List.mem_cons.mp h1 with h2 | h2
        · exact Or.inr ⟨_, h2⟩
        · exact Or.inl h2
      · exact Or.inr h1

theorem no_newline_natDecimal (n : Nat) : '\n' ∉ natDecimal n := by
  intro h
  rcases mem_toDigitsCore 10 (n + 1) n [] '\n' h with h1 | ⟨m, hm⟩
  · simp at h1
  · exact digitChar_ne_newline m hm.symm

theorem no_newline_intDecimal (v : Int) : '\n' ∉ intDecimal v := by
  cases v with
  | ofNat n => exact no_newline_natDecimal n
  | negSucc n =>
    intro h
    rcases List.mem_cons.mp h with h1 | h1
    · exact absurd h1 (by decide)
    · exact no_newline_natDecimal (n + 1) h1

theorem no_newline_formatLiteral (fv : FieldVal) (lit : Str)
    (hok : formatLiteral fv = Except.ok lit) (hp : '\n' ∉ fvPayload fv) :
    '\n' ∉ lit := by
  cases fv with
  | signed w v =>
    cases hok
    intro h
    rcases List.mem_append.mp h with h1 | h1
    · exact no_newline_intDecimal v h1
    · exact absurd h1 (by decide)
  | unsigned w v =>
    cases hok
    intro h
    rcases List.mem_append.mp h with h1 | h1
    · exact no_newline_natDecimal v h1
    · exact absurd h1 (by decide)
  | text s =>
    simp only [formatLiteral] at hok
    split at hok
    · cases hok
    · cases hok
      intro h
      rcases List.mem_cons.mp h with h1 | h1
      · exact absurd h1 (by decide)
      · rcases List.mem_append.mp h1 with h2 | h2
        · exact no_newline_escape_field_value s hp h2
        · exact absurd h2 (by decide)
  | boolean b =>
    cases hok
    cases b <;> decide
  | float d =>
    cases hok
    exact hp
  | otherDisplay d =>
    cases hok
    exact hp

theorem no_newline_renderTags (tags : List (Str × Option Str))
    (h : ∀ p ∈ tags, '\n' ∉ p.1 ∧ '\n' ∉ (p.2.getD [])) :
    ∀ tok ∈ renderTags tags, '\n' ∉ tok := by
  intro tok htok
  rcases List.mem_filterMap.mp htok with ⟨⟨k, ov⟩, hmem, heq⟩
  cases ov with
  | none => simp at heq
  | some v =>
    simp only [Option.map_some'] at heq
    rcases Option.some.inj heq with rfl
    intro hn
    rcases List.mem_append.mp hn with hn1 | hn1
    · exact no_newline_escape_tag_key k (h _ hmem).1 hn1
    · rcases List.mem_cons.mp hn1 with hn2 | hn2
      · exact absurd hn2 (by decide)
      · exact no_newline_escape_tag_value v (by simpa using (h _ hmem).2) hn2

theorem no_newline_renderFields (fs : List (Str × Option FieldVal)) (toks : List Str)
    (hok : renderFields fs = Except.ok toks)
    (h : ∀ p ∈ fs, '\n' ∉ p.1 ∧ '\n' ∉ ((p.2.map fvPayload).getD [])) :
    ∀ tok ∈ toks, '\n' ∉ tok := by
  induction fs generalizing toks with
  | nil =>
    cases hok
    simp
  | cons p rest ih =>
    obtain ⟨k, ov⟩ := p
    cases ov with
    | none =>
      exact ih toks hok fun q hq => h q (List.mem_cons_of_mem _ hq)
    | some fv =>
      simp only [renderFields] at hok
      cases hlit : formatLiteral fv with
      | error e => rw [hlit] at hok; cases hok
      | ok lit =>
        rw [hlit] at hok
        cases hrest : renderFields rest with
        | error e => rw [hrest] at hok; cases hok
        | ok toks2 =>
          rw [hrest] at hok
          cases hok
          intro tok htok
          rcases List.mem_cons.mp htok with h1 | h1
          · subst h1
            intro hn
            rcases List.mem_append.mp hn with hn1 | hn1
            · exact no_newline_escape_field_key k (h _ (List.mem_cons_self _ _)).1 hn1
            · rcases List.mem_cons.mp hn1 with hn2 | hn2
              · exact absurd hn2 (by decide)
              · exact no_newline_formatLiteral fv lit hlit
                  (by simpa using (h _ (List.mem_cons_self _ _)).2) hn2
          · exact ih toks2 hrest (fun q hq => h q (List.mem_cons_of_mem _ hq)) tok h1

theorem mem_joinComma (l : List Str) (c : Char) (h : c ∈ joinComma l) :
    c = ',' ∨ ∃ x ∈ l, c ∈ x := by
  induction l with
  | nil => simp [joinComma] at h
  | cons x xs ih =>
    cases xs with
    | nil => exact Or.inr ⟨x, List.mem_cons_self _ _, h⟩
    | cons y ys =>
      simp only [joinComma] at h ih
      rcases List.mem_append.mp h with h1 | h1
      · exact Or.inr ⟨x, List.mem_cons_self _ _, h1⟩
      · rcases List.mem_cons.mp h1 with h2 | h2
        · exact Or.inl h2
        · rcases ih h2 with h3 | ⟨z, hz, hcz⟩
          · exact Or.inl h3
          · exact Or.inr ⟨z, List.mem_cons_of_mem _ hz, hcz⟩

/-- C9 counterexample: a tag value containing a newline passes through
all escapes untouched, so the successfully returned line contains a
newline character — the output is not always a single line. -/
theorem claim_C9_counterexample :
    encode ⟨String.toList "S", some (String.toList "home"),
      [(String.toList "room", some ['a', '\n', 'b'])],
      [(String.toList "temp", some (FieldVal.float (String.toList "1")))], none⟩ =
      Except.ok (String.toList "home,room=a\nb temp=1") ∧
    '\n' ∈ String.toList "home,room=a\nb temp=1" :=
  ⟨rfl, by decide⟩

/-- C9 amended: the assembler itself never inserts a newline — whenever
encoding succeeds and the measurement, every tag key and present tag
value, and every field key and present field payload (text or `Display`
rendering) contain no newline, the returned line contains no newline;
but caller-supplied strings containing newlines pass through unescaped
into the output. -/
theorem claim_C9_amended (r : Record) (tn out : Str)
    (htn : r.tableName = some tn)
    (h1 : '\n' ∉ tn)
    (h2 : ∀ p ∈ r.tags, '\n' ∉ p.1 ∧ '\n' ∉ (p.2.getD []))
    (h3 : ∀ p ∈ r.fields, '\n' ∉ p.1 ∧ '\n' ∉ ((p.2.map fvPayload).getD []))
    (hok : encode r = Except.ok out) :
    '\n' ∉ out := by
  obtain ⟨sn, otn, tags, fs, ts⟩ := r
  simp only at htn h2 h3 hok ⊢
  subst htn
  have htags : ∀ tok ∈ renderTags tags, '\n' ∉ tok := no_newline_renderTags tags h2
  have htagsStr :
      '\n' ∉ (if renderTags tags = [] then ([] : Str)
        else ',' :: joinComma (renderTags tags)) := by
    split
    · simp
    · intro hc
      rcases List.mem_cons.mp hc with hc1 | hc1
      · exact absurd hc1 (by decide)
      · rcases mem_joinComma _ _ hc1 with hc2 | ⟨x, hx, hcx⟩
        · exact absurd hc2 (by decide)
        · exact htags x hx hcx
  by_cases hne : fs = []
  · subst hne
    rw [show encode ⟨sn, some tn, tags, [], ts⟩ =
      Except.error (LpErr.fail (noFieldsMsg sn)) from rfl] at hok
    cases hok
  · cases hrf : renderFields fs with
    | error e =>
      have herr : encode ⟨sn, some tn, tags, fs, ts⟩ = Except.error e := by
        simp only [encode]
        rw [if_neg (fun h0 => hne (List.length_eq_zero.mp h0)), hrf]
      rw [herr] at hok
      cases hok
    | ok toks =>
      have htoks : ∀ tok ∈ toks, '\n' ∉ tok := no_newline_renderFields fs toks hrf h3
      have hfieldsStr : '\n' ∉ joinComma toks := by
        intro hc
        rcases mem_joinComma _ _ hc with hc1 | ⟨x, hx, hcx⟩
        · exact absurd hc1 (by decide)
        · exact htoks x hx hcx
      have he := encode_ok ⟨sn, some tn, tags, fs, ts⟩ tn toks rfl hne hrf
      rw [hok] at he
      injection he with he
      subst he
      simp only [specAssemble]
      intro hc
      rcases List.mem_append.mp hc with hc1 | hd
      · rcases List.mem_append.mp hc1 with hc2 | hcC
        · rcases List.mem_append.mp hc2 with hcA | hcB
          · exact no_newline_escape_table tn h1 hcA
          · exact htagsStr hcB
        · rcases List.mem_cons.mp hcC with hc4 | hc4
          · exact absurd hc4 (by decide)
          · exact hfieldsStr hc4
      · cases ts with
        | none => simp at hd
        | some v =>
          simp only [Option.map_some'] at hd
          rcases List.mem_cons.mp hd with hc4 | hc4
          · exact absurd hc4 (by decide)
          · exact no_newline_intDecimal v hc4

/-- Witness for C9 amended at a concrete newline-free record. -/
theorem claim_C9_amended_witness :
    ('\n' ∉ String.toList "home") ∧
    (∀ p ∈ [(String.toList "room", some (String.toList "K"))],
      '\n' ∉ p.1 ∧ '\n' ∉ (p.2.getD [])) ∧
    (∀ p ∈ [(String.toList "temp", some (FieldVal.float (String.toList "1")))],
      '\n' ∉ p.1 ∧ '\n' ∉ ((p.2.map fvPayload).getD [])) ∧
    encode ⟨String.toList "S", some (String.toList "home"),
      [(String.toList "room", some (String.toList "K"))],
      [(String.toList "temp", some (FieldVal.float (String.toList "1")))],
      some 5⟩ = Except.ok (String.toList "home,room=K temp=1 5") ∧
    '\n' ∉ String.toList "home,room=K temp=1 5" :=
  ⟨by decide, by decide, by decide, rfl,
   claim_C9_amended
     ⟨String.toList "S", some (String.toList "home"),
      [(String.toList "room", some (String.toList "K"))],
      [(String.toList "temp", some (FieldVal.float (String.toList "1")))],
      some 5⟩
     (String.toList "home") (String.toList "home,room=K temp=1 5")
     rfl (by decide) (by decide) (by decide) rfl⟩

end Influx3Lp
